import Mathlib

/-!
Verification of the Local-AI-Orchestrator admission-and-dispatch engine.

This file gives a shallow embedding of the parts of the source that the
claims concern: the per-model configuration records (src/config.py), the
concurrency rule suite (src/concurrency/builtins.py and manager.py), the
queuing scheduler (src/queuing/scheduler.py), the request controller's
fallback walk (src/app.py), the registry rebuild (src/registry.py), the
provider adapters' model listing (src/providers/openai_compat.py and
ollama.py), the error taxonomy (src/errors.py), and the attribute sets
relevant to the health endpoint (src/app.py, src/scheduler.py,
src/queuing/scheduler.py).  Machine floats of the source carry values in
0..100 and are modelled as rationals; Python exceptions are modelled as
Except values; dictionaries as insertion-ordered association lists,
matching CPython semantics.
-/

/-- Embeds config.py ModelResourceConfig: cpu, gpu and vram percentages
(documented range 0-100) and the exclusive flag; all default to zero or
false when absent. -/
structure ModelResourceConfig where
  cpu_usage : ℚ := 0
  gpu_usage : ℚ := 0
  vram_usage : ℚ := 0
  exclusive : Bool := false
  deriving DecidableEq, Repr

/-- Embeds config.py ModelScoreConfig: per-model scoring and admission
inputs. -/
structure ModelScoreConfig where
  base_priority : ℤ := 0
  load_penalty : ℤ := 0
  runtime_penalty : ℤ := 0
  always_run_last : Bool := false
  resources : ModelResourceConfig := {}
  deriving DecidableEq, Repr

/-- The fixed model-record table (the result of global_config.load_models),
an insertion-ordered dictionary keyed by model id. -/
abbrev ModelsCfg := List (String × ModelScoreConfig)

/-- Dictionary lookup on the model table. -/
def mlookup (models : ModelsCfg) (mid : String) : Option ModelScoreConfig :=
  match models with
  | [] => none
  | (k, v) :: rest => if k = mid then some v else mlookup rest mid

/-- Embeds the fields of types.py Job that the scheduler and rules read. -/
structure Job where
  job_id : String
  resolved_model_id : String
  deriving DecidableEq, Repr

/-- Embeds ExclusiveModelRule._is_exclusive: consult the model record's
exclusive flag, defaulting to false when the model has no record. -/
def isExclusive (models : ModelsCfg) (mid : String) : Bool :=
  match mlookup models mid with
  | some cfg => cfg.resources.exclusive
  | none => false

/-- Embeds ExclusiveModelRule.can_run: deny when the candidate is
exclusive and the active set is non-empty, or when any active job's
resolved model is exclusive. -/
def exclusiveCanRun (models : ModelsCfg) (job : Job) (active : List Job) : Bool :=
  if isExclusive models job.resolved_model_id && !active.isEmpty then
    false
  else if active.any (fun a => isExclusive models a.resolved_model_id) then
    false
  else
    true

/-- Embeds ResourceLimitRule._get_resources: the model record's resource
descriptor, or an all-zero default when the model has no record. -/
def getResources (models : ModelsCfg) (mid : String) : ModelResourceConfig :=
  match mlookup models mid with
  | some cfg => cfg.resources
  | none => {}

/-- Sum of cpu_usage over the resolved models of a job list
(the total_cpu accumulation in ResourceLimitRule.can_run). -/
def cpuSum (models : ModelsCfg) (jobs : List Job) : ℚ :=
  (jobs.map (fun j => (getResources models j.resolved_model_id).cpu_usage)).sum

/-- Sum of gpu_usage over the resolved models of a job list
(the total_gpu accumulation in ResourceLimitRule.can_run). -/
def gpuSum (models : ModelsCfg) (jobs : List Job) : ℚ :=
  (jobs.map (fun j => (getResources models j.resolved_model_id).gpu_usage)).sum

/-- Embeds ResourceLimitRule.can_run: deny when adding the candidate's
usage to the active totals would strictly exceed 100 on either axis. -/
def resourceCanRun (models : ModelsCfg) (job : Job) (active : List Job) : Bool :=
  let cand := getResources models job.resolved_model_id
  if cpuSum models active + cand.cpu_usage > 100 then false
  else if gpuSum models active + cand.gpu_usage > 100 then false
  else true

/-- Embeds MaxConcurrencyRule.can_run with bound n. -/
def maxConcurrencyCanRun (n : Nat) (active : List Job) : Bool :=
  active.length < n

/-- Embeds ConcurrencyManager.can_run over the default rule set installed
by Scheduler._setup_default_rules: ExclusiveModelRule, ResourceLimitRule,
MaxConcurrencyRule(10), combined as a short-circuit conjunction. -/
def canRun (models : ModelsCfg) (job : Job) (active : List Job) : Bool :=
  exclusiveCanRun models job active
    && resourceCanRun models job active
    && maxConcurrencyCanRun 10 active

/-- The scheduler's queue dictionary: model id to FIFO queue of jobs,
insertion-ordered as a CPython dict. -/
abbrev QMap := List (String × List Job)

/-- Dictionary lookup on the queue map. -/
def qlookup (qs : QMap) (mid : String) : Option (List Job) :=
  match qs with
  | [] => none
  | (k, v) :: rest => if k = mid then some v else qlookup rest mid

/-- In-place update of an existing key of the queue map. -/
def qupdate (qs : QMap) (mid : String) (q : List Job) : QMap :=
  qs.map (fun p => if p.1 = mid then (mid, q) else p)

/-- Embeds the mutable state of queuing/scheduler.py Scheduler that the
scheduling pass reads and writes: the queue dictionary and the list of
active jobs. -/
structure SchedState where
  queues : QMap
  active : List Job

/-- Embeds the sort_key closure of Scheduler._schedule_pending_jobs:
primary component 0 when the model id is among the resolved model ids of
the active jobs, else 1; secondary component the negated base priority
from the model table (falling back to the configured default score). -/
def sortKey (models : ModelsCfg) (dflt : ModelScoreConfig) (active : List Job)
    (mid : String) : Nat × ℤ :=
  let is_active : Nat := if active.any (fun j => j.resolved_model_id = mid) then 0 else 1
  let score_config := (mlookup models mid).getD dflt
  (is_active, -score_config.base_priority)

/-- Lexicographic comparison of sort keys, the order used by Python's
stable ascending sort on key tuples. -/
def leKey (models : ModelsCfg) (dflt : ModelScoreConfig) (active : List Job)
    (a b : String) : Bool :=
  let ka := sortKey models dflt active a
  let kb := sortKey models dflt active b
  decide (ka.1 < kb.1) || (decide (ka.1 = kb.1) && decide (ka.2 ≤ kb.2))

/-- Stable insertion of an element into a list: the element is placed
before the first entry it compares less-or-equal to, hence after every
earlier entry with an equal key. -/
def insertSorted (le : α → α → Bool) (a : α) : List α → List α
  | [] => [a]
  | b :: l => if le a b then a :: b :: l else b :: insertSorted le a l

/-- Stable sort (the semantics of Python's list.sort, which is a stable
sort by the key function): for a total transitive comparison this agrees
with any stable sort, elementwise. -/
def stableSort (le : α → α → Bool) : List α → List α
  | [] => []
  | a :: l => insertSorted le a (stableSort le l)

/-- The candidate list of a scheduling pass: model ids with non-empty
queues, sorted stably by the sort key. -/
def sortedCandidates (models : ModelsCfg) (dflt : ModelScoreConfig)
    (qs : QMap) (active : List Job) : List String :=
  stableSort (leKey models dflt active)
    ((qs.filter (fun p => !p.2.isEmpty)).map Prod.fst)

/-- Result of a scheduling pass: the updated queue map, the updated active
list, the jobs for which execution tasks were spawned, in admission order,
and the returned count of started jobs. -/
structure PassResult where
  queues : QMap
  active : List Job
  spawned : List Job
  started : Nat

/-- Embeds the candidate loop of Scheduler._schedule_pending_jobs: for
each candidate model in order, re-read its queue, skip it when empty, peek
the head job, admit it when every rule passes (popping the head, appending
to the active list, spawning its execution task and counting it), and on
denial leave the queue untouched. -/
def passStep (models : ModelsCfg) : List String → QMap → List Job → PassResult
  | [], qs, act => ⟨qs, act, [], 0⟩
  | mid :: rest, qs, act =>
    match qlookup qs mid with
    | none => passStep models rest qs act
    | some [] => passStep models rest qs act
    | some (j :: tail) =>
      if canRun models j act then
        let r := passStep models rest (qupdate qs mid tail) (act ++ [j])
        ⟨r.queues, r.active, j :: r.spawned, r.started + 1⟩
      else
        passStep models rest qs act

/-- Embeds Scheduler._schedule_pending_jobs as a whole: build the sorted
candidate list and run the admission loop over it. -/
def schedulePass (models : ModelsCfg) (dflt : ModelScoreConfig)
    (s : SchedState) : PassResult :=
  passStep models (sortedCandidates models dflt s.queues s.active) s.queues s.active

/-- The scheduler state after one scheduling pass. -/
def scheduleState (models : ModelsCfg) (dflt : ModelScoreConfig)
    (s : SchedState) : SchedState :=
  let r := schedulePass models dflt s
  ⟨r.queues, r.active⟩

/-- Embeds Scheduler.enqueue_job: append the job to its model's queue,
creating the queue (at the end of the dictionary) on demand. -/
def enqueueJob (j : Job) (s : SchedState) : SchedState :=
  match qlookup s.queues j.resolved_model_id with
  | some q => ⟨qupdate s.queues j.resolved_model_id (q ++ [j]), s.active⟩
  | none => ⟨s.queues ++ [(j.resolved_model_id, [j])], s.active⟩

/-- Embeds the completion path of Scheduler._execute_job: remove the
first occurrence of the job from the active list when present. -/
def completeJob (j : Job) (s : SchedState) : SchedState :=
  ⟨s.queues, s.active.erase j⟩

/-- One scheduler-state transition: a client enqueues a job, the dispatch
loop runs a scheduling pass under the default rule set, or an execution
task completes and removes its job from the active list. -/
inductive SchedStep (models : ModelsCfg) (dflt : ModelScoreConfig) :
    SchedState → SchedState → Prop
  | enqueue (j : Job) (s : SchedState) : SchedStep models dflt s (enqueueJob j s)
  | schedule (s : SchedState) : SchedStep models dflt s (scheduleState models dflt s)
  | complete (j : Job) (s : SchedState) : SchedStep models dflt s (completeJob j s)

/-- The initial scheduler state: no queues, no active jobs. -/
def initState : SchedState := ⟨[], []⟩

/-- States reachable from the initial scheduler state by enqueuing,
scheduling passes and completions, with the model table fixed. -/
def Reachable (models : ModelsCfg) (dflt : ModelScoreConfig) (s : SchedState) : Prop :=
  Relation.ReflTransGen (SchedStep models dflt) initState s

/-- Inserting an element permutes with prepending it. -/
lemma insertSorted_perm (le : α → α → Bool) (a : α) (l : List α) :
    List.Perm (insertSorted le a l) (a :: l) := by
  induction l with
  | nil => exact List.Perm.refl _
  | cons b l ih =>
    unfold insertSorted
    by_cases h : le a b = true
    · simp [h]
    · simp only [h, Bool.false_eq_true, if_false]
      exact (List.Perm.cons b ih).trans (List.Perm.swap a b l)

/-- Stable sort permutes its input. -/
lemma stableSort_perm (le : α → α → Bool) (l : List α) :
    List.Perm (stableSort le l) l := by
  induction l with
  | nil => exact List.Perm.refl _
  | cons a l ih =>
    exact (insertSorted_perm le a (stableSort le l)).trans (List.Perm.cons a ih)

/-- Membership in an inserted list. -/
lemma mem_insertSorted (le : α → α → Bool) (a x : α) (l : List α) :
    x ∈ insertSorted le a l ↔ x = a ∨ x ∈ l :=
  ⟨fun h => by simpa using (insertSorted_perm le a l).mem_iff.mp h,
   fun h => (insertSorted_perm le a l).mem_iff.mpr (by simpa using h)⟩

/-- Insertion preserves ordering, given a total transitive comparison. -/
lemma pairwise_insertSorted (le : α → α → Bool)
    (htrans : ∀ a b c, le a b = true → le b c = true → le a c = true)
    (htot : ∀ a b, le a b = true ∨ le b a = true)
    (a : α) (l : List α) (h : l.Pairwise (fun x y => le x y = true)) :
    (insertSorted le a l).Pairwise (fun x y => le x y = true) := by
  induction l with
  | nil => simp [insertSorted]
  | cons b l ih =>
    rcases List.pairwise_cons.mp h with ⟨hb, hl⟩
    unfold insertSorted
    by_cases hab : le a b = true
    · simp only [hab, if_true]
      refine List.pairwise_cons.mpr ⟨?_, h⟩
      intro x hx
      rcases List.mem_cons.mp hx with hx | hx
      · subst hx; exact hab
      · exact htrans a b x hab (hb x hx)
    · simp only [hab, Bool.false_eq_true, if_false]
      refine List.pairwise_cons.mpr ⟨?_, ih hl⟩
      intro x hx
      rcases (mem_insertSorted le a x l).mp hx with hx | hx
      · rcases htot a b with hab' | hba
        · exact absurd hab' hab
        · rw [hx]; exact hba
      · exact hb x hx

/-- Stable sort orders its input, given a total transitive comparison. -/
lemma pairwise_stableSort (le : α → α → Bool)
    (htrans : ∀ a b c, le a b = true → le b c = true → le a c = true)
    (htot : ∀ a b, le a b = true ∨ le b a = true) (l : List α) :
    (stableSort le l).Pairwise (fun x y => le x y = true) := by
  induction l with
  | nil => simp [stableSort]
  | cons a l ih => exact pairwise_insertSorted le htrans htot a _ ih

/-- The exclusive-model invariant on an active list: if any job's model
is exclusive, the list has exactly one element. -/
def ExclInv (models : ModelsCfg) (act : List Job) : Prop :=
  (∃ j ∈ act, isExclusive models j.resolved_model_id = true) → act.length = 1

/-- What a passing ExclusiveModelRule check guarantees: an exclusive
candidate sees an empty active set, and no active job is exclusive. -/
lemma exclusiveCanRun_facts (models : ModelsCfg) (j : Job) (act : List Job)
    (h : exclusiveCanRun models j act = true) :
    (isExclusive models j.resolved_model_id = true → act = []) ∧
    (∀ a ∈ act, ¬ isExclusive models a.resolved_model_id = true) := by
  unfold exclusiveCanRun at h
  by_cases h1 : (isExclusive models j.resolved_model_id && !act.isEmpty) = true
  · rw [if_pos h1] at h; exact Bool.noConfusion h
  · rw [if_neg h1] at h
    by_cases h2 : act.any (fun a => isExclusive models a.resolved_model_id) = true
    · rw [if_pos h2] at h; exact Bool.noConfusion h
    · constructor
      · intro hj
        by_contra hne
        apply h1
        have : act.isEmpty = false := by
          cases act with
          | nil => exact absurd rfl hne
          | cons x l => rfl
        simp [hj, this]
      · intro a ha hexa
        exact h2 (List.any_eq_true.mpr ⟨a, ha, hexa⟩)

/-- Admitting a job that passes the default rule set preserves the
exclusive-model invariant. -/
lemma exclInv_append (models : ModelsCfg) (j : Job) (act : List Job)
    (hc : canRun models j act = true) (hinv : ExclInv models act) :
    ExclInv models (act ++ [j]) := by
  have hex : exclusiveCanRun models j act = true := by
    unfold canRun at hc
    cases he : exclusiveCanRun models j act
    · rw [he] at hc; simp at hc
    · rfl
  rcases exclusiveCanRun_facts models j act hex with ⟨hjcase, hacase⟩
  rintro ⟨a, ha, hexa⟩
  rcases List.mem_append.mp ha with ha | ha
  · exact absurd hexa (hacase a ha)
  · have haj : a = j := by simpa using ha
    subst haj
    have hactnil : act = [] := hjcase hexa
    subst hactnil
    rfl

/-- A scheduling-pass loop preserves the exclusive-model invariant. -/
lemma passStep_exclInv (models : ModelsCfg) (cands : List String) :
    ∀ qs act, ExclInv models act →
      ExclInv models (passStep models cands qs act).active := by
  induction cands with
  | nil => intro qs act h; exact h
  | cons m rest ih =>
    intro qs act h
    unfold passStep
    cases hq : qlookup qs m with
    | none => exact ih qs act h
    | some q =>
      cases q with
      | nil => exact ih qs act h
      | cons j tail =>
        dsimp only
        by_cases hc : canRun models j act = true
        · rw [if_pos hc]
          exact ih _ _ (exclInv_append models j act hc h)
        · rw [if_neg hc]
          exact ih qs act h

/-- Removing a job preserves the exclusive-model invariant. -/
lemma exclInv_erase (models : ModelsCfg) (j : Job) (act : List Job)
    (hinv : ExclInv models act) : ExclInv models (act.erase j) := by
  rintro ⟨a, ha, hexa⟩
  have ha' : a ∈ act := (List.erase_sublist j act).subset ha
  have hlen : act.length = 1 := hinv ⟨a, ha', hexa⟩
  obtain ⟨x, hx⟩ := List.length_eq_one.mp hlen
  subst hx
  by_cases hjx : x = j
  · subst hjx; simp at ha
  · have : [x].erase j = [x] := by
      simp [List.erase_cons, hjx]
    rw [this]
    rfl

/-- Enqueuing never changes the active list. -/
lemma enqueueJob_active (j : Job) (s : SchedState) :
    (enqueueJob j s).active = s.active := by
  unfold enqueueJob
  cases qlookup s.queues j.resolved_model_id <;> rfl

/-- C1.  Exclusive-model invariant: in every scheduler state reachable by
enqueuing jobs, running scheduling passes under the default rule set
(ExclusiveModelRule, ResourceLimitRule, MaxConcurrencyRule 10) and
completing jobs, with the model resource records fixed, if any job in the
active set has its model's exclusive resource flag true then the active
set contains exactly one job. -/
theorem exclusive_model_invariant (models : ModelsCfg) (dflt : ModelScoreConfig)
    (s : SchedState) (hs : Reachable models dflt s)
    (hex : ∃ j ∈ s.active, isExclusive models j.resolved_model_id = true) :
    s.active.length = 1 := by
  suffices h : ExclInv models s.active from h hex
  clear hex
  induction hs with
  | refl => rintro ⟨a, ha, _⟩; cases ha
  | tail hsteps hstep ih =>
    cases hstep with
    | enqueue j s' => rw [enqueueJob_active]; exact ih
    | schedule s' => exact passStep_exclInv models _ _ _ ih
    | complete j s' => exact exclInv_erase models j _ ih

/-- Concrete job used by the invariant witnesses. -/
def wJob : Job := ⟨"j1", "mx"⟩

/-- Concrete model table with one exclusive model. -/
def wModels : ModelsCfg := [("mx", { resources := { exclusive := true } })]

/-- State after enqueuing the witness job. -/
def wState1 : SchedState := enqueueJob wJob initState

/-- State after one scheduling pass admits the witness job. -/
def wState2 : SchedState := scheduleState wModels {} wState1

/-- Witness for C1: a concrete reachable state whose single active job is
exclusive, at which the invariant theorem applies. -/
theorem exclusive_model_invariant_witness :
    Reachable wModels {} wState2 ∧
    (∃ j ∈ wState2.active, isExclusive wModels j.resolved_model_id = true) ∧
    wState2.active.length = 1 := by
  have hreach : Reachable wModels {} wState2 :=
    Relation.ReflTransGen.tail
      (Relation.ReflTransGen.tail Relation.ReflTransGen.refl
        (SchedStep.enqueue wJob initState))
      (SchedStep.schedule wState1)
  have hactive : wState2.active = [wJob] := by
    norm_num [wState2, wState1, wJob, wModels, scheduleState, schedulePass,
      sortedCandidates, stableSort, insertSorted, passStep, enqueueJob,
      initState, qlookup, qupdate, canRun, exclusiveCanRun, resourceCanRun,
      maxConcurrencyCanRun, cpuSum, gpuSum, getResources, isExclusive, mlookup]
  have hex : ∃ j ∈ wState2.active, isExclusive wModels j.resolved_model_id = true := by
    rw [hactive]
    exact ⟨wJob, List.mem_singleton.mpr rfl, by decide⟩
  exact ⟨hreach, hex, exclusive_model_invariant wModels {} wState2 hreach hex⟩

/-- A scheduling-pass loop preserves any active-list property that is
preserved by admitting a job which passes the default rule set. -/
lemma passStep_active_inv (models : ModelsCfg) (P : List Job → Prop)
    (happ : ∀ (j : Job) (act : List Job),
      canRun models j act = true → P act → P (act ++ [j])) :
    ∀ (cands : List String) (qs : QMap) (act : List Job),
      P act → P (passStep models cands qs act).active := by
  intro cands
  induction cands with
  | nil => intro qs act h; exact h
  | cons m rest ih =>
    intro qs act h
    unfold passStep
    cases hq : qlookup qs m with
    | none => exact ih qs act h
    | some q =>
      cases q with
      | nil => exact ih qs act h
      | cons j tail =>
        dsimp only
        by_cases hc : canRun models j act = true
        · rw [if_pos hc]
          exact ih _ _ (happ j act hc h)
        · rw [if_neg hc]
          exact ih qs act h

/-- Any active-list property preserved by rule-checked admission and by
removal holds of the empty list and hence in every reachable state. -/
lemma reachable_active_inv (models : ModelsCfg) (dflt : ModelScoreConfig)
    (P : List Job → Prop) (hnil : P [])
    (happ : ∀ (j : Job) (act : List Job),
      canRun models j act = true → P act → P (act ++ [j]))
    (herase : ∀ (j : Job) (act : List Job), P act → P (act.erase j))
    (s : SchedState) (hs : Reachable models dflt s) : P s.active := by
  induction hs with
  | refl => exact hnil
  | tail hsteps hstep ih =>
    cases hstep with
    | enqueue j s' => rw [enqueueJob_active]; exact ih
    | schedule s' => exact passStep_active_inv models P happ _ _ _ ih
    | complete j s' => exact herase j _ ih

/-- A pair found by dictionary lookup is a member of the table. -/
lemma mlookup_mem (models : ModelsCfg) (mid : String) (c : ModelScoreConfig)
    (h : mlookup models mid = some c) : (mid, c) ∈ models := by
  induction models with
  | nil => cases h
  | cons p rest ih =>
    obtain ⟨k, v⟩ := p
    unfold mlookup at h
    by_cases hk : k = mid
    · rw [if_pos hk] at h
      injection h with h
      subst hk; subst h
      exact List.mem_cons_self _ _
    · rw [if_neg hk] at h
      exact List.mem_cons_of_mem _ (ih h)

/-- Resolved cpu usage is nonnegative when every record's is. -/
lemma getResources_cpu_nonneg (models : ModelsCfg)
    (hres : ∀ p ∈ models, 0 ≤ p.2.resources.cpu_usage) (mid : String) :
    0 ≤ (getResources models mid).cpu_usage := by
  unfold getResources
  cases h : mlookup models mid with
  | none => exact le_refl 0
  | some c => exact hres (mid, c) (mlookup_mem models mid c h)

/-- Resolved gpu usage is nonnegative when every record's is. -/
lemma getResources_gpu_nonneg (models : ModelsCfg)
    (hres : ∀ p ∈ models, 0 ≤ p.2.resources.gpu_usage) (mid : String) :
    0 ≤ (getResources models mid).gpu_usage := by
  unfold getResources
  cases h : mlookup models mid with
  | none => exact le_refl 0
  | some c => exact hres (mid, c) (mlookup_mem models mid c h)

/-- What a passing ResourceLimitRule check guarantees: the would-be new
totals stay within 100 on both axes. -/
lemma resourceCanRun_facts (models : ModelsCfg) (j : Job) (act : List Job)
    (h : resourceCanRun models j act = true) :
    cpuSum models act + (getResources models j.resolved_model_id).cpu_usage ≤ 100 ∧
    gpuSum models act + (getResources models j.resolved_model_id).gpu_usage ≤ 100 := by
  simp only [resourceCanRun] at h
  by_cases h1 : cpuSum models act + (getResources models j.resolved_model_id).cpu_usage > 100
  · rw [if_pos h1] at h; exact Bool.noConfusion h
  · rw [if_neg h1] at h
    by_cases h2 : gpuSum models act + (getResources models j.resolved_model_id).gpu_usage > 100
    · rw [if_pos h2] at h; exact Bool.noConfusion h
    · exact ⟨le_of_not_lt h1, le_of_not_lt h2⟩

/-- The ResourceLimitRule denies exactly when adding the candidate's usage
would strictly exceed 100 on either axis. -/
lemma resourceCanRun_false_iff (models : ModelsCfg) (j : Job) (act : List Job) :
    resourceCanRun models j act = false ↔
      (100 < cpuSum models act + (getResources models j.resolved_model_id).cpu_usage ∨
       100 < gpuSum models act + (getResources models j.resolved_model_id).gpu_usage) := by
  simp only [resourceCanRun]
  by_cases h1 : cpuSum models act + (getResources models j.resolved_model_id).cpu_usage > 100
  · simp [h1]
  · rw [if_neg h1]
    by_cases h2 : gpuSum models act + (getResources models j.resolved_model_id).gpu_usage > 100
    · simp [h1, h2]
    · simp [h1, h2]

/-- The cpu sum over an appended singleton. -/
lemma cpuSum_append (models : ModelsCfg) (act : List Job) (j : Job) :
    cpuSum models (act ++ [j]) =
      cpuSum models act + (getResources models j.resolved_model_id).cpu_usage := by
  unfold cpuSum
  rw [List.map_append, List.sum_append]
  simp

/-- The gpu sum over an appended singleton. -/
lemma gpuSum_append (models : ModelsCfg) (act : List Job) (j : Job) :
    gpuSum models (act ++ [j]) =
      gpuSum models act + (getResources models j.resolved_model_id).gpu_usage := by
  unfold gpuSum
  rw [List.map_append, List.sum_append]
  simp

/-- The default rule set appears left-to-right as a short-circuit
conjunction, so admission through it implies the resource rule passed. -/
lemma canRun_resource (models : ModelsCfg) (j : Job) (act : List Job)
    (hc : canRun models j act = true) : resourceCanRun models j act = true := by
  unfold canRun at hc
  cases hr : resourceCanRun models j act
  · rw [hr] at hc; simp at hc
  · rfl

/-- A model with no record resolves to zero usage on both axes. -/
lemma getResources_missing (models : ModelsCfg) (mid : String)
    (h : mlookup models mid = none) :
    (getResources models mid).cpu_usage = 0 ∧ (getResources models mid).gpu_usage = 0 := by
  unfold getResources
  rw [h]
  exact ⟨rfl, rfl⟩

/-- C2.  Resource-sum invariant: in every reachable scheduler state under
the default rule set, with model records fixed and their usages within the
documented 0-100 range (nonnegativity is what the proof needs), the cpu
usages of the active jobs' resolved models sum to at most 100 and likewise
the gpu usages; moreover the ResourceLimitRule denies a candidate exactly
when adding its usage would strictly exceed 100 on either axis, and a
model with no record contributes zero to both sums. -/
theorem resource_sum_invariant (models : ModelsCfg) (dflt : ModelScoreConfig)
    (hcpu : ∀ p ∈ models, 0 ≤ p.2.resources.cpu_usage)
    (hgpu : ∀ p ∈ models, 0 ≤ p.2.resources.gpu_usage)
    (s : SchedState) (hs : Reachable models dflt s) :
    (cpuSum models s.active ≤ 100 ∧ gpuSum models s.active ≤ 100) ∧
    (∀ (j : Job) (act : List Job),
      resourceCanRun models j act = false ↔
        (100 < cpuSum models act + (getResources models j.resolved_model_id).cpu_usage ∨
         100 < gpuSum models act + (getResources models j.resolved_model_id).gpu_usage)) ∧
    (∀ mid, mlookup models mid = none →
      (getResources models mid).cpu_usage = 0 ∧ (getResources models mid).gpu_usage = 0) := by
  refine ⟨?_, fun j act => resourceCanRun_false_iff models j act,
          fun mid h => getResources_missing models mid h⟩
  refine reachable_active_inv models dflt
    (fun act => cpuSum models act ≤ 100 ∧ gpuSum models act ≤ 100) ?_ ?_ ?_ s hs
  · constructor <;> norm_num [cpuSum, gpuSum]
  · intro j act hc hinv
    have hfacts := resourceCanRun_facts models j act (canRun_resource models j act hc)
    rw [cpuSum_append, gpuSum_append]
    exact hfacts
  · intro j act hinv
    constructor
    · refine le_trans ?_ hinv.1
      exact List.Sublist.sum_le_sum ((List.erase_sublist j act).map _)
        (fun a ha => by
          obtain ⟨x, hx, rfl⟩ := List.mem_map.mp ha
          exact getResources_cpu_nonneg models hcpu _)
    · refine le_trans ?_ hinv.2
      exact List.Sublist.sum_le_sum ((List.erase_sublist j act).map _)
        (fun a ha => by
          obtain ⟨x, hx, rfl⟩ := List.mem_map.mp ha
          exact getResources_gpu_nonneg models hgpu _)

/-- Concrete model table for the resource witness: one model using 60
percent of the gpu. -/
def wModelsR : ModelsCfg := [("g1", { resources := { gpu_usage := 60 } })]

/-- Concrete job for the resource witness. -/
def wJobR : Job := ⟨"j2", "g1"⟩

/-- Reachable state for the resource witness: enqueue then one pass. -/
def wStateR : SchedState := scheduleState wModelsR {} (enqueueJob wJobR initState)

/-- Witness for C2: the invariant theorem applied at a concrete reachable
state with a 60-percent gpu model active. -/
theorem resource_sum_invariant_witness :
    (∀ p ∈ wModelsR, 0 ≤ p.2.resources.cpu_usage) ∧
    (∀ p ∈ wModelsR, 0 ≤ p.2.resources.gpu_usage) ∧
    Reachable wModelsR {} wStateR ∧
    (cpuSum wModelsR wStateR.active ≤ 100 ∧ gpuSum wModelsR wStateR.active ≤ 100) := by
  have hcpu : ∀ p ∈ wModelsR, 0 ≤ p.2.resources.cpu_usage := by
    intro p hp
    rcases List.mem_singleton.mp hp with rfl
    norm_num [wModelsR]
  have hgpu : ∀ p ∈ wModelsR, 0 ≤ p.2.resources.gpu_usage := by
    intro p hp
    rcases List.mem_singleton.mp hp with rfl
    norm_num [wModelsR]
  have hreach : Reachable wModelsR {} wStateR :=
    Relation.ReflTransGen.tail
      (Relation.ReflTransGen.tail Relation.ReflTransGen.refl
        (SchedStep.enqueue wJobR initState))
      (SchedStep.schedule (enqueueJob wJobR initState))
  exact ⟨hcpu, hgpu, hreach,
    (resource_sum_invariant wModelsR {} hcpu hgpu wStateR hreach).1⟩

/-- Updating one key leaves lookups of other keys unchanged. -/
lemma qlookup_qupdate_ne (qs : QMap) (m m' : String) (q : List Job)
    (h : m ≠ m') : qlookup (qupdate qs m' q) m = qlookup qs m := by
  induction qs with
  | nil => rfl
  | cons p rest ih =>
    obtain ⟨k, v⟩ := p
    show qlookup ((if k = m' then (m', q) else (k, v)) :: qupdate rest m' q) m
        = qlookup ((k, v) :: rest) m
    by_cases hk : k = m'
    · rw [if_pos hk]
      show (if m' = m then some q else qlookup (qupdate rest m' q) m)
          = if k = m then some v else qlookup rest m
      rw [if_neg (Ne.symm h), if_neg (fun hkm => h (by rw [← hkm, hk]))]
      exact ih
    · rw [if_neg hk]
      show (if k = m then some v else qlookup (qupdate rest m' q) m)
          = if k = m then some v else qlookup rest m
      by_cases hkm : k = m
      · rw [if_pos hkm, if_pos hkm]
      · rw [if_neg hkm, if_neg hkm]
        exact ih

/-- Updating a present key makes lookup return the new queue. -/
lemma qlookup_qupdate_self (qs : QMap) (m : String) (q q0 : List Job)
    (h : qlookup qs m = some q0) : qlookup (qupdate qs m q) m = some q := by
  induction qs with
  | nil => cases h
  | cons p rest ih =>
    obtain ⟨k, v⟩ := p
    unfold qlookup at h
    show qlookup ((if k = m then (m, q) else (k, v)) :: qupdate rest m q) m = some q
    by_cases hk : k = m
    · rw [if_pos hk]
      show (if m = m then some q else qlookup (qupdate rest m q) m) = some q
      rw [if_pos rfl]
    · rw [if_neg hk] at h
      rw [if_neg hk]
      show (if k = m then some v else qlookup (qupdate rest m q) m) = some q
      rw [if_neg hk]
      exact ih h

/-- The count returned by the admission loop equals the number of spawned
jobs. -/
lemma passStep_started (models : ModelsCfg) :
    ∀ (cands : List String) (qs : QMap) (act : List Job),
      (passStep models cands qs act).started =
        (passStep models cands qs act).spawned.length := by
  intro cands
  induction cands with
  | nil => intro qs act; rfl
  | cons m rest ih =>
    intro qs act
    unfold passStep
    cases hq : qlookup qs m with
    | none => exact ih qs act
    | some q =>
      cases q with
      | nil => exact ih qs act
      | cons j tail =>
        dsimp only
        by_cases hc : canRun models j act = true
        · rw [if_pos hc]
          simp [ih]
        · rw [if_neg hc]
          exact ih qs act

/-- The admission loop appends exactly the spawned jobs to the active
list, in admission order. -/
lemma passStep_active (models : ModelsCfg) :
    ∀ (cands : List String) (qs : QMap) (act : List Job),
      (passStep models cands qs act).active =
        act ++ (passStep models cands qs act).spawned := by
  intro cands
  induction cands with
  | nil => intro qs act; exact (List.append_nil act).symm
  | cons m rest ih =>
    intro qs act
    unfold passStep
    cases hq : qlookup qs m with
    | none => exact ih qs act
    | some q =>
      cases q with
      | nil => exact ih qs act
      | cons j tail =>
        dsimp only
        by_cases hc : canRun models j act = true
        · rw [if_pos hc]
          dsimp only
          rw [ih]
          simp
        · rw [if_neg hc]
          exact ih qs act

/-- The admission loop never touches queues of models outside the
candidate list. -/
lemma passStep_lookup_not_mem (models : ModelsCfg) :
    ∀ (cands : List String) (qs : QMap) (act : List Job) (m : String),
      m ∉ cands →
      qlookup (passStep models cands qs act).queues m = qlookup qs m := by
  intro cands
  induction cands with
  | nil => intro qs act m _; rfl
  | cons m' rest ih =>
    intro qs act m hm
    have hne : m ≠ m' := fun h => hm (h ▸ List.mem_cons_self m' rest)
    have hrest : m ∉ rest := fun h => hm (List.mem_cons_of_mem m' h)
    unfold passStep
    cases hq : qlookup qs m' with
    | none => exact ih qs act m hrest
    | some q =>
      cases q with
      | nil => exact ih qs act m hrest
      | cons j tail =>
        dsimp only
        by_cases hc : canRun models j act = true
        · rw [if_pos hc]
          dsimp only
          rw [ih _ _ m hrest]
          exact qlookup_qupdate_ne qs m m' tail hne
        · rw [if_neg hc]
          exact ih qs act m hrest

/-- Outcome of the admission loop on each queue: either untouched (the
model was absent, empty-queued, or its head was denied) or exactly the
head was popped and spawned. -/
lemma passStep_queues (models : ModelsCfg) :
    ∀ (cands : List String) (qs : QMap) (act : List Job), cands.Nodup →
      ∀ m, qlookup (passStep models cands qs act).queues m = qlookup qs m ∨
        ∃ j t, qlookup qs m = some (j :: t) ∧
          qlookup (passStep models cands qs act).queues m = some t ∧
          j ∈ (passStep models cands qs act).spawned := by
  intro cands
  induction cands with
  | nil => intro qs act _ m; exact Or.inl rfl
  | cons m' rest ih =>
    intro qs act hnd m
    have hm'rest : m' ∉ rest := (List.nodup_cons.mp hnd).1
    have hndr : rest.Nodup := (List.nodup_cons.mp hnd).2
    unfold passStep
    cases hq : qlookup qs m' with
    | none => exact ih qs act hndr m
    | some q =>
      cases q with
      | nil => exact ih qs act hndr m
      | cons j tail =>
        dsimp only
        by_cases hc : canRun models j act = true
        · rw [if_pos hc]
          dsimp only
          by_cases hmm : m = m'
          · subst hmm
            right
            refine ⟨j, tail, hq, ?_, List.mem_cons_self j _⟩
            rw [passStep_lookup_not_mem models rest _ _ m hm'rest]
            exact qlookup_qupdate_self qs m tail (j :: tail) hq
          · rcases ih (qupdate qs m' tail) (act ++ [j]) hndr m with h1 | ⟨j', t', h1, h2, h3⟩
            · rw [qlookup_qupdate_ne qs m m' tail hmm] at h1
              exact Or.inl h1
            · rw [qlookup_qupdate_ne qs m m' tail hmm] at h1
              exact Or.inr ⟨j', t', h1, h2, List.mem_cons_of_mem _ h3⟩
        · rw [if_neg hc]
          exact ih qs act hndr m

/-- Every spawned job passed the full rule check against the active set as
it stood at its admission (the prior active jobs plus the jobs admitted
earlier in the same pass), and was the head of its model's queue at the
start of the pass. -/
lemma passStep_spawned (models : ModelsCfg) :
    ∀ (cands : List String) (qs : QMap) (act : List Job), cands.Nodup →
      ∀ j ∈ (passStep models cands qs act).spawned,
        ∃ pre suf, (passStep models cands qs act).spawned = pre ++ j :: suf ∧
          canRun models j (act ++ pre) = true ∧
          ∃ m t, m ∈ cands ∧ qlookup qs m = some (j :: t) := by
  intro cands
  induction cands with
  | nil => intro qs act _ j hj; cases hj
  | cons m' rest ih =>
    intro qs act hnd
    have hm'rest : m' ∉ rest := (List.nodup_cons.mp hnd).1
    have hndr : rest.Nodup := (List.nodup_cons.mp hnd).2
    unfold passStep
    cases hq : qlookup qs m' with
    | none =>
      intro j hj
      rcases ih qs act hndr j hj with ⟨pre, suf, h1, h2, m'', t'', h3, h4⟩
      exact ⟨pre, suf, h1, h2, m'', t'', List.mem_cons_of_mem _ h3, h4⟩
    | some q =>
      cases q with
      | nil =>
        intro j hj
        rcases ih qs act hndr j hj with ⟨pre, suf, h1, h2, m'', t'', h3, h4⟩
        exact ⟨pre, suf, h1, h2, m'', t'', List.mem_cons_of_mem _ h3, h4⟩
      | cons j tail =>
        dsimp only
        by_cases hc : canRun models j act = true
        · rw [if_pos hc]
          dsimp only
          intro j'' hj''
          rcases List.mem_cons.mp hj'' with heq | hmem
          · subst heq
            refine ⟨[], (passStep models rest (qupdate qs m' tail) (act ++ [j''])).spawned,
              rfl, ?_, m', tail, List.mem_cons_self m' rest, hq⟩
            rw [List.append_nil]; exact hc
          · rcases ih (qupdate qs m' tail) (act ++ [j]) hndr j'' hmem with
              ⟨pre', suf', h1, h2, m'', t'', h3, h4⟩
            refine ⟨j :: pre', suf', by rw [h1]; rfl, ?_, m'', t'', List.mem_cons_of_mem _ h3, ?_⟩
            · rw [List.append_cons]; exact h2
            · have hne : m'' ≠ m' := fun h => hm'rest (h ▸ h3)
              rw [qlookup_qupdate_ne qs m'' m' tail hne] at h4
              exact h4
        · rw [if_neg hc]
          intro j'' hj''
          rcases ih qs act hndr j'' hj'' with ⟨pre, suf, h1, h2, m'', t'', h3, h4⟩
          exact ⟨pre, suf, h1, h2, m'', t'', List.mem_cons_of_mem _ h3, h4⟩

/-- The key comparison spelt out as the lexicographic order on the key
pair. -/
lemma leKey_iff (models : ModelsCfg) (dflt : ModelScoreConfig) (act : List Job)
    (a b : String) :
    leKey models dflt act a b = true ↔
      ((sortKey models dflt act a).1 < (sortKey models dflt act b).1 ∨
       ((sortKey models dflt act a).1 = (sortKey models dflt act b).1 ∧
        (sortKey models dflt act a).2 ≤ (sortKey models dflt act b).2)) := by
  simp [leKey]

/-- The key comparison is transitive. -/
lemma leKey_trans (models : ModelsCfg) (dflt : ModelScoreConfig) (act : List Job) :
    ∀ a b c, leKey models dflt act a b = true → leKey models dflt act b c = true →
      leKey models dflt act a c = true := by
  intro a b c hab hbc
  rw [leKey_iff] at hab hbc ⊢
  rcases hab with h | ⟨h1, h2⟩ <;> rcases hbc with g | ⟨g1, g2⟩
  · exact Or.inl (lt_trans h g)
  · exact Or.inl (by rw [← g1]; exact h)
  · exact Or.inl (by rw [h1]; exact g)
  · exact Or.inr ⟨h1.trans g1, le_trans h2 g2⟩

/-- The key comparison is total. -/
lemma leKey_total (models : ModelsCfg) (dflt : ModelScoreConfig) (act : List Job) :
    ∀ a b, leKey models dflt act a b = true ∨ leKey models dflt act b a = true := by
  intro a b
  rw [leKey_iff, leKey_iff]
  rcases lt_trichotomy (sortKey models dflt act a).1 (sortKey models dflt act b).1 with h | h | h
  · exact Or.inl (Or.inl h)
  · rcases le_total (sortKey models dflt act a).2 (sortKey models dflt act b).2 with h2 | h2
    · exact Or.inl (Or.inr ⟨h, h2⟩)
    · exact Or.inr (Or.inr ⟨h.symm, h2⟩)
  · exact Or.inr (Or.inl h)

/-- Lookup in a model map (model id to provider id), as used by the
registry. -/
def slookup (mm : List (String × String)) (mid : String) : Option String :=
  match mm with
  | [] => none
  | (k, v) :: rest => if k = mid then some v else slookup rest mid

/-- Modelled from the spec's words, for comparison with the code's
sort key (claim C4): the first component is 0 when the candidate model's
provider is the provider already executing some active job, per "prefer
models whose provider is already executing a job". -/
def specProviderStickyKey (mm : List (String × String)) (models : ModelsCfg)
    (dflt : ModelScoreConfig) (active : List Job) (mid : String) : Nat × ℤ :=
  let provider_active : Bool :=
    (slookup mm mid).isSome &&
      active.any (fun j => slookup mm j.resolved_model_id == slookup mm mid)
  let is_active : Nat := if provider_active then 0 else 1
  ((is_active : Nat), -((mlookup models mid).getD dflt).base_priority)

/-- Key comparison for the spec-side provider-sticky key. -/
def specLeKey (mm : List (String × String)) (models : ModelsCfg)
    (dflt : ModelScoreConfig) (active : List Job) (a b : String) : Bool :=
  let ka := specProviderStickyKey mm models dflt active a
  let kb := specProviderStickyKey mm models dflt active b
  decide (ka.1 < kb.1) || (decide (ka.1 = kb.1) && decide (ka.2 ≤ kb.2))

/-- Candidate order the claim describes: sorted by the provider-sticky
key. -/
def specSortedCandidates (mm : List (String × String)) (models : ModelsCfg)
    (dflt : ModelScoreConfig) (qs : QMap) (active : List Job) : List String :=
  stableSort (specLeKey mm models dflt active)
    ((qs.filter (fun p => !p.2.isEmpty)).map Prod.fst)

/-- Model map for the C4 counterexample: two models on provider p, one on
provider q. -/
def cMM : List (String × String) := [("m1", "p"), ("m2", "p"), ("m3", "q")]

/-- Model table for the C4 counterexample: m3 has higher base priority. -/
def cModels : ModelsCfg := [("m3", { base_priority := 5 })]

/-- Active job for the C4 counterexample: provider p is executing m1. -/
def cAct : List Job := [⟨"a1", "m1"⟩]

/-- Queues for the C4 counterexample: m2 and m3 each have one pending
job. -/
def cQs : QMap := [("m2", [⟨"b2", "m2"⟩]), ("m3", [⟨"b3", "m3"⟩])]

/-- Counterexample for C4 as stated: with m1 and m2 sharing provider p and
a job of m1 active, the claimed provider-sticky order puts m2 (whose
provider is executing a job) first, but the code keys on the model id
alone, so m2 is not treated as active and the higher-priority m3 is
considered first. -/
theorem scheduling_order_counterexample :
    sortedCandidates cModels {} cQs cAct = ["m3", "m2"] ∧
    specSortedCandidates cMM cModels {} cQs cAct = ["m2", "m3"] ∧
    sortedCandidates cModels {} cQs cAct ≠ specSortedCandidates cMM cModels {} cQs cAct := by
  exact ⟨by decide, by decide, by decide⟩

/-- C4 (amended).  Scheduling pass: assuming the queue dictionary has
distinct keys (a dict invariant), a pass considers exactly the models with
non-empty queues, sorted by the key (0 if the candidate model itself has a
job in the active set - model-level stickiness, not provider-level - else
1, then decreasing base priority); the pass returns the number of
admissions, appends the admitted jobs to the active set in admission
order, pops exactly the head of an admitted candidate's queue and leaves
every other queue untouched (never inspecting deeper items), and every
admitted job was the head of its queue and passed every concurrency rule
against the active set as it stood at its admission. -/
theorem scheduling_pass_amended (models : ModelsCfg) (dflt : ModelScoreConfig)
    (qs : QMap) (act : List Job) (hkeys : (qs.map Prod.fst).Nodup) :
    List.Perm (sortedCandidates models dflt qs act)
      ((qs.filter (fun p => !p.2.isEmpty)).map Prod.fst) ∧
    (sortedCandidates models dflt qs act).Pairwise (fun a b =>
      (sortKey models dflt act a).1 < (sortKey models dflt act b).1 ∨
      ((sortKey models dflt act a).1 = (sortKey models dflt act b).1 ∧
       (sortKey models dflt act a).2 ≤ (sortKey models dflt act b).2)) ∧
    (schedulePass models dflt ⟨qs, act⟩).started =
      (schedulePass models dflt ⟨qs, act⟩).spawned.length ∧
    (schedulePass models dflt ⟨qs, act⟩).active =
      act ++ (schedulePass models dflt ⟨qs, act⟩).spawned ∧
    (∀ m, qlookup (schedulePass models dflt ⟨qs, act⟩).queues m = qlookup qs m ∨
      ∃ j t, qlookup qs m = some (j :: t) ∧
        qlookup (schedulePass models dflt ⟨qs, act⟩).queues m = some t ∧
        j ∈ (schedulePass models dflt ⟨qs, act⟩).spawned) ∧
    (∀ j ∈ (schedulePass models dflt ⟨qs, act⟩).spawned,
      ∃ pre suf, (schedulePass models dflt ⟨qs, act⟩).spawned = pre ++ j :: suf ∧
        canRun models j (act ++ pre) = true ∧
        ∃ m t, m ∈ sortedCandidates models dflt qs act ∧
          qlookup qs m = some (j :: t)) := by
  have hfilter : ((qs.filter (fun p => !p.2.isEmpty)).map Prod.fst).Nodup :=
    ((List.filter_sublist qs).map Prod.fst).nodup hkeys
  have hperm : List.Perm (sortedCandidates models dflt qs act)
      ((qs.filter (fun p => !p.2.isEmpty)).map Prod.fst) :=
    stableSort_perm (leKey models dflt act) _
  have hcands : (sortedCandidates models dflt qs act).Nodup :=
    hperm.nodup_iff.mpr hfilter
  refine ⟨hperm, ?_, passStep_started models _ qs act, passStep_active models _ qs act,
    passStep_queues models _ qs act hcands, passStep_spawned models _ qs act hcands⟩
  exact (pairwise_stableSort (leKey models dflt act)
    (leKey_trans models dflt act) (leKey_total models dflt act) _).imp
    (fun hab => (leKey_iff models dflt act _ _).mp hab)

/-- Witness for the amended C4: the dict-key hypothesis holds at the
counterexample state, and the theorem yields the admission count there. -/
theorem scheduling_pass_amended_witness :
    (cQs.map Prod.fst).Nodup ∧
    (schedulePass cModels {} ⟨cQs, cAct⟩).started =
      (schedulePass cModels {} ⟨cQs, cAct⟩).spawned.length :=
  ⟨by decide, (scheduling_pass_amended cModels {} cQs cAct (by decide)).2.2.1⟩

/-- Embeds the per-candidate outcome observed by the chat_completions
loop in app.py: the candidate model is missing from the registry map, or
the enqueued job reached the error terminal state (carrying job.error and
job.normalized_error), or the job completed with a response (modelled as
an opaque payload string). -/
inductive CandOutcome where
  | missing : CandOutcome
  | failed (err : Option String) (norm : Option String) : CandOutcome
  | ok (resp : String) : CandOutcome
  deriving DecidableEq, Repr

/-- An entry of the attempts_log list in chat_completions; the missing
case appends no normalized key, modelled as none. -/
structure Attempt where
  model : String
  error : Option String
  normalized : Option String
  deriving DecidableEq, Repr

/-- Embeds the candidate loop of app.py chat_completions: skip a missing
model after logging it; return the response of a completed job; on an
error job, log the attempt with the normalized code defaulted to other,
then continue to the next candidate only when one exists, global fallback
is enabled and the code is in the route's trigger set, and otherwise fail
with the accumulated attempts (as the final HTTPException does). -/
def runChain (fb : Bool) (trig : List String) :
    List (String × CandOutcome) → List Attempt → Except (List Attempt) String
  | [], log => .error log
  | (m, outcome) :: rest, log =>
    match outcome with
    | .missing =>
      runChain fb trig rest (log ++ [⟨m, some ("Model " ++ m ++ " not found"), none⟩])
    | .ok resp => .ok resp
    | .failed err norm =>
      let normv := norm.getD "other"
      let log2 := log ++ [⟨m, err, some normv⟩]
      if rest.isEmpty then .error log2
      else if fb && trig.contains normv then runChain fb trig rest log2
      else .error log2

/-- C3.  Fallback-chain decision: when a candidate's job ends in error the
controller appends the attempt record (model, error, normalized code
defaulted to other) and proceeds to the next candidate exactly when a next
candidate exists, the global fallback flag is on, and the normalized code
is in the route's trigger set - otherwise it fails with the accumulated
attempts; with an empty trigger set it never proceeds past an error; and
an exhausted chain fails with the aggregate list of every attempt. -/
theorem fallback_chain_decision (fb : Bool) (trig : List String) (m : String)
    (err : Option String) (norm : Option String)
    (rest : List (String × CandOutcome)) (log : List Attempt) :
    (runChain fb trig ((m, .failed err norm) :: rest) log =
      if rest ≠ [] ∧ fb = true ∧ (norm.getD "other") ∈ trig
      then runChain fb trig rest (log ++ [⟨m, err, some (norm.getD "other")⟩])
      else .error (log ++ [⟨m, err, some (norm.getD "other")⟩])) ∧
    (trig = [] →
      runChain fb trig ((m, .failed err norm) :: rest) log =
        .error (log ++ [⟨m, err, some (norm.getD "other")⟩])) ∧
    runChain fb trig [] log = .error log := by
  refine ⟨?_, ?_, rfl⟩
  · show (let normv := norm.getD "other"
          let log2 := log ++ [⟨m, err, some normv⟩]
          if rest.isEmpty then Except.error log2
          else if fb && trig.contains normv then runChain fb trig rest log2
          else Except.error log2) = _
    by_cases hrest : rest = []
    · subst hrest
      simp
    · rw [if_neg (by simpa [List.isEmpty_iff] using hrest)]
      by_cases hfb : fb = true
      · by_cases hmem : (norm.getD "other") ∈ trig
        · rw [if_pos (by simp [hfb, hmem]), if_pos ⟨hrest, hfb, hmem⟩]
        · rw [if_neg (by simp [hmem]), if_neg (by simp [hmem])]
      · rw [if_neg (by simp [hfb]), if_neg (by simp [hfb])]
  · intro htrig
    subst htrig
    show (let normv := norm.getD "other"
          let log2 := log ++ [⟨m, err, some normv⟩]
          if rest.isEmpty then Except.error log2
          else if fb && List.contains [] normv then runChain fb [] rest log2
          else Except.error log2) = _
    by_cases hrest : rest.isEmpty = true
    · rw [if_pos hrest]
    · rw [if_neg hrest, if_neg (by simp)]

/-- Witness for C3: with an empty trigger set, an error on the first of
two candidates stops the chain with exactly that attempt logged. -/
theorem fallback_chain_decision_witness :
    runChain true [] [("mA", CandOutcome.failed (some "boom") none),
        ("mB", CandOutcome.ok "r")] [] =
      Except.error [⟨"mA", some "boom", some "other"⟩] := by
  have h := (fallback_chain_decision true [] "mA" (some "boom") none
    [("mB", CandOutcome.ok "r")] []).2.1 rfl
  simpa using h

/-- The registry's model map: model id to provider id, insertion
ordered. -/
abbrev ModelMap := List (String × String)

/-- Embeds the model-insertion loop of Registry.detect_and_register_models
for one healthy provider: each discovered model id is inserted unless
already present (the first discovered owner wins). -/
def insertModels (mm : ModelMap) (pid : String) (ms : List String) : ModelMap :=
  ms.foldl (fun acc m => if (slookup acc m).isSome then acc else acc ++ [(m, pid)]) mm

/-- The fold of provider insertions used to describe rebuilt maps. -/
def providerFold (mm : ModelMap) (entries : List (String × List String)) : ModelMap :=
  entries.foldl (fun acc p => insertModels acc p.1 p.2) mm

/-- The model map fully rebuilt from a provider discovery list. -/
def buildModelMap (entries : List (String × List String)) : ModelMap :=
  providerFold [] entries

/-- Embeds the provider loop of detect_and_register_models as the final
map together with the sequence of map states visible at its suspension
points: the probe and listing of each provider are awaited, so the state
after each provider's insertions is observable by other tasks. -/
def detectLoop (mm : ModelMap) : List (String × List String) → ModelMap × List ModelMap
  | [] => (mm, [])
  | (pid, ms) :: rest =>
    let mm2 := insertModels mm pid ms
    let r := detectLoop mm2 rest
    (r.1, mm2 :: r.2)

/-- The model-map states a reader can observe around Registry.refresh: the
map from before the refresh, the cleared map (model_map.clear runs before
the first provider is probed), and the state after each provider. -/
def refreshObservables (m0 : ModelMap) (entries : List (String × List String)) :
    List ModelMap :=
  m0 :: [] :: (detectLoop [] entries).2

/-- Counterexample for C5 as stated: with one provider re-listing the one
previously known model, a reader during the refresh can observe the
cleared (empty) map, which is neither the map from before the refresh nor
the fully rebuilt map. -/
theorem model_map_rebuild_counterexample :
    ([] : ModelMap) ∈ refreshObservables [("m1", "p")] [("p", ["m1"])] ∧
    ([] : ModelMap) ≠ [("m1", "p")] ∧
    buildModelMap [("p", ["m1"])] = [("m1", "p")] := by
  exact ⟨by decide, by decide, by decide⟩

/-- The final map of the provider loop is the fold of its insertions. -/
lemma detectLoop_fst :
    ∀ (entries : List (String × List String)) (mm : ModelMap),
      (detectLoop mm entries).1 = providerFold mm entries := by
  intro entries
  induction entries with
  | nil => intro mm; rfl
  | cons p rest ih =>
    intro mm
    obtain ⟨pid, ms⟩ := p
    exact ih (insertModels mm pid ms)

/-- Every state recorded by the provider loop is the fold of a non-empty
prefix of the provider list. -/
lemma detectLoop_obs :
    ∀ (entries : List (String × List String)) (mm : ModelMap) (s : ModelMap),
      s ∈ (detectLoop mm entries).2 →
      ∃ i ≤ entries.length, s = providerFold mm (entries.take i) := by
  intro entries
  induction entries with
  | nil => intro mm s hs; cases hs
  | cons p rest ih =>
    intro mm s hs
    obtain ⟨pid, ms⟩ := p
    rcases List.mem_cons.mp hs with heq | hmem
    · exact ⟨1, by simp, heq⟩
    · rcases ih (insertModels mm pid ms) s hmem with ⟨i, hi, hfold⟩
      exact ⟨i + 1, by simpa using hi, hfold⟩

/-- C5 (amended).  The registry's model map is not replaced atomically on
refresh: it is cleared and repopulated in place, so a reader during the
refresh may observe the empty map or the map rebuilt from any prefix of
the provider discovery list; every observable state is the map from before
the refresh or such a prefix rebuild, and when the loop finishes the map
is the fully rebuilt one. -/
theorem model_map_rebuild_amended (m0 : ModelMap)
    (entries : List (String × List String)) :
    (∀ s ∈ refreshObservables m0 entries,
      s = m0 ∨ ∃ i ≤ entries.length, s = buildModelMap (entries.take i)) ∧
    (detectLoop [] entries).1 = buildModelMap entries := by
  constructor
  · intro s hs
    rcases List.mem_cons.mp hs with heq | hs2
    · exact Or.inl heq
    · rcases List.mem_cons.mp hs2 with heq | hobs
      · exact Or.inr ⟨0, Nat.zero_le _, heq⟩
      · rcases detectLoop_obs entries [] s hobs with ⟨i, hi, hfold⟩
        exact Or.inr ⟨i, hi, hfold⟩
  · exact detectLoop_fst entries []

/-- Witness for the amended C5: at the counterexample input the empty map
is observable and is the rebuild of the empty provider prefix. -/
theorem model_map_rebuild_amended_witness :
    ([] : ModelMap) = [("m1", "p")] ∨
    ∃ i ≤ ([("p", ["m1"])] : List (String × List String)).length,
      ([] : ModelMap) =
        buildModelMap (([("p", ["m1"])] : List (String × List String)).take i) :=
  (model_map_rebuild_amended [("m1", "p")] [("p", ["m1"])]).1 [] (by decide)

/-- A Python value usable as a normalized error code: the taxonomy of
errors.py uses strings, but the no-provider raise in the scheduler passes
the integer 500 as the second positional argument of GatewayError. -/
inductive PyVal where
  | str (s : String)
  | int (n : Nat)
  deriving DecidableEq, Repr

/-- Embeds an exception as _execute_job sees it: the message and the
normalized_code attribute when present (absent on non-gateway
exceptions). -/
structure PyExc where
  message : String
  normalized_code : Option PyVal
  deriving DecidableEq, Repr

/-- Embeds the raise in Scheduler._execute_job when the registry has no
provider for the job's model: GatewayError(message, 500) binds 500 to the
normalized_code parameter of GatewayError.__init__. -/
def noProviderError (mid : String) : PyExc :=
  ⟨"No provider found for " ++ mid, some (.int 500)⟩

/-- The job fields written by the except branch of _execute_job. -/
structure JobErrorFields where
  status : String
  error : Option String
  normalized_error : Option PyVal
  deriving DecidableEq, Repr

/-- Embeds the except branch of _execute_job: set status to error, store
the message, and copy normalized_code only when the attribute exists. -/
def executeJobFail (e : PyExc) : JobErrorFields :=
  ⟨"error", some e.message, e.normalized_code⟩

/-- Python falsiness of the modelled values: the empty string and zero are
falsy, everything else truthy. -/
def pyFalsy : PyVal → Bool
  | .str s => s.isEmpty
  | .int n => n == 0

/-- Embeds the controller's defaulting expression in app.py:
job.normalized_error or "other". -/
def pyOrOther (v : Option PyVal) : PyVal :=
  match v with
  | none => .str "other"
  | some x => if pyFalsy x then .str "other" else x

/-- The closed normalized-code taxonomy of errors.py and the spec. -/
def normalizedTaxonomy : List PyVal :=
  [.str "unreachable", .str "timeout", .str "oom", .str "context_length",
   .str "other"]

/-- C6.  Normalized-code closure fails on the no-provider path: the job
errored by the no-provider failure carries normalized code 500 - the HTTP
status slipped into the normalized_code parameter - which is outside the
closed taxonomy, and the controller's or-default keeps 500 instead of
falling back to other; the default does apply when the attribute is
absent. -/
theorem normalized_code_closure_violation :
    (executeJobFail (noProviderError "m1")).status = "error" ∧
    (executeJobFail (noProviderError "m1")).normalized_error =
      some (PyVal.int 500) ∧
    pyOrOther (executeJobFail (noProviderError "m1")).normalized_error =
      PyVal.int 500 ∧
    PyVal.int 500 ∉ normalizedTaxonomy ∧
    pyOrOther none = PyVal.str "other" := by decide

/-- Embeds the miss-handling of chat_completions together with the absent
cooldown guard: when the candidate model is not in the model map and
runtime.auto_refresh_on_miss is set, the controller calls
Registry.refresh unconditionally - neither the controller nor refresh
compares the elapsed time against runtime.refresh_cooldown_seconds, which
is read nowhere (refresh only records a timestamp afterwards). -/
def controllerRefreshOnMiss (inModelMap : Bool) (autoRefreshOnMiss : Bool)
    (secondsSinceLastRefresh : ℚ) (refreshCooldownSeconds : ℚ) : Bool :=
  if !inModelMap then
    if autoRefreshOnMiss then true else false
  else false

/-- C7.  With auto-refresh on miss enabled, a miss occurring zero seconds
after the previous refresh still triggers a refresh, and the decision is
independent of the elapsed time and of the configured cooldown. -/
theorem refresh_cooldown_not_enforced :
    controllerRefreshOnMiss false true 0 30 = true ∧
    (∀ elapsed cooldown : ℚ,
      controllerRefreshOnMiss false true elapsed cooldown = true) :=
  ⟨rfl, fun _ _ => rfl⟩

/-- Result of the global_config.load_models() call made inside the
scheduling pass's sort key: parsing models.yaml can raise. -/
abbrev LoadModelsResult := Except String ModelsCfg

/-- Embeds Scheduler._schedule_pending_jobs including its exception flow:
an empty candidate list returns 0 before any sort-key evaluation; once
candidates exist, sorting evaluates the key function, whose
load_models() call propagates any parse failure - the pass contains no
try/except. -/
def schedulePassExc (lm : LoadModelsResult) (dflt : ModelScoreConfig)
    (s : SchedState) : Except String (SchedState × Nat) :=
  if ((s.queues.filter (fun p => !p.2.isEmpty)).map Prod.fst).isEmpty then
    .ok (s, 0)
  else
    match lm with
    | .error e => .error e
    | .ok models =>
      let r := schedulePass models dflt s
      .ok (⟨r.queues, r.active⟩, r.started)

/-- Embeds Scheduler.run_process_loop: the while body calls the
scheduling pass with no surrounding try/except, so an exception from the
pass propagates out of the loop; otherwise the loop repeats until the
shutdown flag is set (iterations bounded by fuel to keep the model
total). -/
def runProcessLoop (fuel : Nat) (lm : LoadModelsResult)
    (dflt : ModelScoreConfig) (shutdown : Bool) (s : SchedState) :
    Except String SchedState :=
  match fuel with
  | 0 => .ok s
  | Nat.succ fuel2 =>
    if shutdown then .ok s
    else
      match schedulePassExc lm dflt s with
      | .error e => .error e
      | .ok (s2, _) => runProcessLoop fuel2 lm dflt shutdown s2

/-- C8.  Dispatch-loop survival fails: with one pending job and a failing
load_models(), the dispatch loop terminates with the propagated exception
even though the shutdown flag is never set - nothing in run_process_loop
or the pass catches scheduler-internal exceptions. -/
theorem dispatch_loop_exception_escapes :
    runProcessLoop 5 (Except.error "ConfigError: invalid models.yaml") {}
      false ⟨[("m1", [⟨"j1", "m1"⟩])], []⟩ =
      Except.error "ConfigError: invalid models.yaml" := rfl

/-- An HTTP response to the model-listing GET: status code and the model
ids parsed from the body. -/
structure HttpModelsResponse where
  status : Nat
  ids : List String
  deriving DecidableEq, Repr

/-- Outcome of the model-listing HTTP GET: a response or a raised
transport exception. -/
inductive NetResult where
  | resp (r : HttpModelsResponse)
  | exc
  deriving DecidableEq, Repr

/-- Python truthiness of the declared_models configuration entry: an
absent key or an empty list is falsy. -/
def declaredTruthy : Option (List String) → Bool
  | none => false
  | some l => !l.isEmpty

/-- Embeds OpenAICompatProvider.list_models: return the declared list
without the GET when it is truthy; otherwise GET, returning the parsed
ids on status 200 and the empty list on any other status or on an
exception. The first component records whether the HTTP GET was
performed. -/
def openaiListModels (declared : Option (List String)) (net : NetResult) :
    Bool × List String :=
  if declaredTruthy declared then (false, declared.getD [])
  else
    match net with
    | .resp r => if r.status == 200 then (true, r.ids) else (true, [])
    | .exc => (true, [])

/-- Embeds OllamaProvider.list_models: the GET is performed
unconditionally - the declared_models configuration entry (taken here as
an argument to expose the comparison) is never consulted. -/
def ollamaListModels (declared : Option (List String)) (net : NetResult) :
    Bool × List String :=
  match net with
  | .resp r => if r.status == 200 then (true, r.ids) else (true, [])
  | .exc => (true, [])

/-- Counterexample for C9 as stated: with a non-empty declared list
present, the Ollama adapter still performs the HTTP GET and does not
return the declared list (here the GET fails with status 500 and the
adapter returns the empty sequence), while the OpenAI-compatible adapter
returns the declared list without the GET. -/
theorem declared_models_counterexample :
    ollamaListModels (some ["mA"]) (NetResult.resp ⟨500, []⟩) = (true, []) ∧
    openaiListModels (some ["mA"]) (NetResult.resp ⟨500, []⟩) =
      (false, ["mA"]) := by decide

/-- C9 (amended).  Only the OpenAI-compatible adapter returns the declared
model list directly without network I/O when a non-empty declared list is
present, issuing the GET otherwise and returning the empty sequence on a
non-success status or a transport error; the Ollama adapter ignores any
declared list and always issues the GET, with the same non-success
behaviour. -/
theorem declared_models_amended (declared : Option (List String))
    (net : NetResult) :
    (declaredTruthy declared = true →
      openaiListModels declared net = (false, declared.getD [])) ∧
    (declaredTruthy declared = false →
      (openaiListModels declared net).1 = true ∧
      openaiListModels declared net = ollamaListModels declared net) ∧
    ollamaListModels declared net = ollamaListModels none net ∧
    (ollamaListModels declared net).1 = true ∧
    (∀ r, net = NetResult.resp r → r.status ≠ 200 →
      ollamaListModels declared net = (true, [])) ∧
    (net = NetResult.exc → ollamaListModels declared net = (true, [])) := by
  refine ⟨?_, ?_, rfl, ?_, ?_, ?_⟩
  · intro h
    unfold openaiListModels
    rw [if_pos h]
  · intro h
    unfold openaiListModels
    rw [if_neg (by rw [h]; exact Bool.false_ne_true)]
    cases net with
    | resp r =>
      by_cases hs : (r.status == 200) = true <;> simp [ollamaListModels, hs]
    | exc => exact ⟨rfl, rfl⟩
  · cases net with
    | resp r =>
      by_cases hs : (r.status == 200) = true <;> simp [ollamaListModels, hs]
    | exc => rfl
  · intro r hr hne
    subst hr
    have hs : (r.status == 200) = false := by simpa using hne
    simp [ollamaListModels, hs]
  · intro hr
    subst hr
    rfl

/-- Witness for the amended C9: a concrete non-empty declared list, at
which the OpenAI-compatible adapter answers without the GET. -/
theorem declared_models_amended_witness :
    declaredTruthy (some ["mA"]) = true ∧
    openaiListModels (some ["mA"]) NetResult.exc = (false, ["mA"]) :=
  ⟨by decide,
   (declared_models_amended (some ["mA"]) NetResult.exc).1 (by decide)⟩

/-- The instance attributes set by queuing/scheduler.py
Scheduler.__init__, the scheduler object app.py imports as
global_scheduler. -/
def queuingSchedulerAttrs : List String :=
  ["queues", "active_jobs", "concurrency_manager", "processing_task",
   "_shutdown_event", "_job_complete_event", "_new_job_event"]

/-- The instance attributes set by the legacy scheduler.py
Scheduler.__init__, which app.py does not import. -/
def legacySchedulerAttrs : List String :=
  ["queues", "active_model_id", "active_provider_id", "global_lock",
   "processing_task"]

/-- Outcome of building the health payload. -/
inductive AttrResult where
  | ok
  | attrError (name : String)
  deriving DecidableEq, Repr

/-- Embeds the health handler body of app.py: building the payload reads
scheduler.active_model_id and then scheduler.active_provider_id, and an
absent attribute raises AttributeError. -/
def healthHandler (schedulerAttrs : List String) : AttrResult :=
  if !(schedulerAttrs.contains "active_model_id") then
    .attrError "active_model_id"
  else if !(schedulerAttrs.contains "active_provider_id") then
    .attrError "active_provider_id"
  else .ok

/-- C10.  Every invocation of the health handler against the scheduler
wired into the app (the queuing scheduler) fails with an attribute-lookup
error on active_model_id rather than returning the payload, because the
queuing Scheduler defines neither identifier attribute while only the
legacy scheduler, not imported by the app, defines both. -/
theorem health_handler_attribute_error :
    healthHandler queuingSchedulerAttrs = AttrResult.attrError "active_model_id" ∧
    "active_model_id" ∉ queuingSchedulerAttrs ∧
    "active_provider_id" ∉ queuingSchedulerAttrs ∧
    "active_model_id" ∈ legacySchedulerAttrs ∧
    "active_provider_id" ∈ legacySchedulerAttrs := by decide
